import Mathlib

/-!
Verification development for the sdp-player repository.

The preset store (src/preset.rs) is embedded as explicit state passing:
the relevant filesystem state (does the app config directory exist, what
does presets.yml hold) is a `FsState`, and the environment conditions the
Rust code branches on (is a config dir resolvable, do the individual I/O
calls succeed) are an `Env`.  `load_presets` and `save_preset` are
translated clause by clause from the source.

The control endpoints (sdplay-serve/src/poem.rs) are embedded as the
functions the handlers compute: `stop` as a function of the number of
currently subscribed broadcast receivers (tokio's broadcast `send` fails
exactly when there are none), `status` and `set_volume` as the constant
results the handlers return.

Concurrent `save_preset` calls are modelled by splitting one save into its
two suspension points (the file read inside the inner `load_presets`, and
the final file write) and interleaving two such tasks under an explicit
schedule.
-/

namespace SdpPlayer

/-- Model of `std::net::SocketAddrV4`: four octets and a port.  Only
stored and compared in the preset code, never computed with. -/
structure SocketAddrV4 where
  a : Nat
  b : Nat
  c : Nat
  d : Nat
  port : Nat
deriving DecidableEq, Repr

/-- Modelled from the spec: `BitDepth` lives in `src/sdp.rs`, which is not
part of the provided sources; the spec only says a custom-stream block
carries a `bitDepth` field.  It is an opaque stored value here. -/
structure BitDepth where
  bits : Nat
deriving DecidableEq, Repr

/-- An `f32` value as its bit pattern.  The preset code only stores,
serializes and compares these fields; it performs no floating-point
arithmetic on them, so an opaque carrier with decidable equality is a
faithful embedding. -/
structure Float32 where
  bitsOf : Nat
deriving DecidableEq, Repr

/-- Model of `url::Url` as its text; the preset code treats it as an
opaque stored value. -/
structure UrlV where
  text : String
deriving DecidableEq, Repr

/-- Embedding of `CustomStreamSettings` (src/preset.rs lines 23-30). -/
structure CustomStreamSettings where
  multicast_address : SocketAddrV4
  bit_depth : BitDepth
  channels : Nat
  sample_rate : Nat
  packet_time : Float32
deriving DecidableEq, Repr

/-- Embedding of `Preset` (src/preset.rs lines 9-21): a name and four
independently optional descriptor-source fields. -/
structure Preset where
  name : String
  raw_sdp : Option String := none
  local_sdp_file : Option String := none
  sdp_url : Option UrlV := none
  custom_stream : Option CustomStreamSettings := none
deriving DecidableEq, Repr

/-- Embedding of `PresetError` (src/preset.rs lines 70-78). -/
inductive PresetError where
  | NoConfigDir
  | IoError
  | YamlError
deriving DecidableEq, Repr

/-- Association-list model of `HashMap<String, Preset>`.  Only its map
behavior (insert replaces the binding of an existing key) is relied on;
the list order stands in for the hash map's arbitrary iteration order. -/
abbrev PresetMap := List (String × Preset)

/-- `HashMap::insert`: replace the binding if the key is present,
otherwise add a new one. -/
def hmInsert (m : PresetMap) (k : String) (v : Preset) : PresetMap :=
  match m with
  | [] => [(k, v)]
  | (k1, v1) :: rest =>
      if k1 = k then (k, v) :: rest else (k1, v1) :: hmInsert rest k v

/-- `HashMap::get`. -/
def hmFind (m : PresetMap) (k : String) : Option Preset :=
  match m with
  | [] => none
  | (k1, v1) :: rest => if k1 = k then some v1 else hmFind rest k

/-- `HashMap::values`, as serialized by `save_preset`. -/
def hmValues : PresetMap → List Preset
  | [] => []
  | (_, v) :: rest => v :: hmValues rest

/-- The keys of the map. -/
def hmKeys : PresetMap → List String
  | [] => []
  | (k, _) :: rest => k :: hmKeys rest

/-- The loop in `load_presets`: `for preset in presets { configs.insert(preset.name.clone(), preset) }`,
starting from an empty map. -/
def fromList (ps : List Preset) : PresetMap :=
  ps.foldl (fun m p => hmInsert m p.name p) []

/-- Content of the backing `presets.yml`: either it parses as a sequence
of `Preset` records or it is present but corrupt. -/
inductive FileContent where
  | presets (ps : List Preset)
  | corrupt
deriving DecidableEq, Repr

/-- The filesystem state the preset store touches: whether the app config
directory exists, and the presets file (`none` = absent). -/
structure FsState where
  dirExists : Bool
  file : Option FileContent
deriving DecidableEq, Repr

/-- Outcomes of the environment calls the Rust code branches on:
`directories::BaseDirs::new()` succeeding, `create_dir_all`, `fs::read`
and `fs::write` succeeding. -/
structure Env where
  baseDirs : Bool
  createDirOk : Bool
  readOk : Bool
  writeOk : Bool
deriving DecidableEq, Repr

/-- Embedding of `load_presets` (src/preset.rs lines 32-50).  Returns the
result together with the filesystem state after the call, since the call
creates the app config directory as a side effect. -/
def load_presets (env : Env) (s : FsState) :
    Except PresetError PresetMap × FsState :=
  if env.baseDirs then
    if env.createDirOk then
      let s1 : FsState := { s with dirExists := true }
      match s1.file with
      | none => (.ok [], s1)
      | some fc =>
          if env.readOk then
            match fc with
            | .presets ps => (.ok (fromList ps), s1)
            | .corrupt => (.error .YamlError, s1)
          else (.error .IoError, s1)
    else (.error .IoError, s)
  else (.error .NoConfigDir, s)

/-- Embedding of `save_preset` (src/preset.rs lines 52-68): resolve the
config dir, create it, load the existing presets via `load_presets`,
insert the new one keyed by its name, and rewrite the whole file with the
map's values. -/
def save_preset (preset : Preset) (env : Env) (s : FsState) :
    Except PresetError Unit × FsState :=
  if env.baseDirs then
    if env.createDirOk then
      let s1 : FsState := { s with dirExists := true }
      match load_presets env s1 with
      | (.error e, s2) => (.error e, s2)
      | (.ok m, s2) =>
          let m2 := hmInsert m preset.name preset
          if env.writeOk then
            (.ok (), { s2 with file := some (.presets (hmValues m2)) })
          else (.error .IoError, s2)
    else (.error .IoError, s)
  else (.error .NoConfigDir, s)

/-- Environment in which every external call succeeds. -/
def envOk : Env := ⟨true, true, true, true⟩

/-- Environment in which the config directory cannot be created. -/
def envNoDir : Env := ⟨true, false, true, true⟩

/-- Fresh filesystem: no app config directory, no presets file. -/
def fsEmpty : FsState := ⟨false, none⟩

/-- Filesystem whose presets file exists but does not parse. -/
def fsCorrupt : FsState := ⟨true, some .corrupt⟩

/-- Sample preset with a raw descriptor text. -/
def presetRaw : Preset := { name := "radio", raw_sdp := some "v=0" }

/-- Sample preset named `a`. -/
def presetA : Preset := { name := "a", raw_sdp := some "x" }

/-- Sample preset named `b`. -/
def presetB : Preset := { name := "b", raw_sdp := some "y" }

/-- A second preset that reuses the name `a` with different content. -/
def presetA2 : Preset := { name := "a", local_sdp_file := some "other.sdp" }

/-- Error type reaching clients of the handlers in
sdplay-serve/src/poem.rs: `to_error_response` (poem.rs lines 81-83) maps
every handler error to an internal-server-error response. -/
inductive PoemError where
  | internalServerError
deriving DecidableEq, Repr

/-- Embedding of the `Status` payload (poem.rs lines 14-17). -/
structure Status where
  playing : Bool
deriving DecidableEq, Repr

/-- Behavior of tokio `broadcast::Sender::send`, which `Api::stop` calls:
it fails exactly when no receiver is currently subscribed, and otherwise
delivers the value to every currently subscribed receiver. -/
def broadcastSend (receiverCount : Nat) : Except Unit Unit :=
  if receiverCount = 0 then .error () else .ok ()

namespace Api

/-- Embedding of `Api::stop` (poem.rs lines 59-64): broadcast on the stop
channel; a send error is mapped by `to_error_response` into an internal
server error. -/
def stop (receiverCount : Nat) : Except PoemError String :=
  match broadcastSend receiverCount with
  | .ok _ => .ok "Ok"
  | .error _ => .error .internalServerError

/-- Embedding of `Api::status` (poem.rs lines 52-57): the handler body is
a stub (`// TODO`) that always answers `playing: true`, consulting no
session state. -/
def status : Except PoemError Status := .ok { playing := true }

/-- Embedding of `Api::set_volume` (poem.rs lines 73-78): the handler
body is a stub (`// TODO`) that ignores the requested volume and answers
Ok. -/
def set_volume (_volume : Float32) : Except PoemError String := .ok "Ok"

end Api

/-- The IEEE-754 bit pattern of the `f32` value 1.5, the out-of-range
volume of the spec's example. -/
def float1_5 : Float32 := ⟨0x3FC00000⟩

/-- Number of descriptor-source fields populated in a preset. -/
def populatedVariants (p : Preset) : Nat :=
  (if p.raw_sdp.isSome then 1 else 0)
  + (if p.local_sdp_file.isSome then 1 else 0)
  + (if p.sdp_url.isSome then 1 else 0)
  + (if p.custom_stream.isSome then 1 else 0)

/-- A preset populating two descriptor sources at once; the `Preset` type
(four independent options) admits it. -/
def presetTwoSources : Preset :=
  { name := "two", raw_sdp := some "v=0",
    sdp_url := some ⟨"http://example.com/a.sdp"⟩ }

/-- Custom stream settings with zero channels, zero sample rate and a
zero packet time; the `CustomStreamSettings` type admits them. -/
def zeroStream : CustomStreamSettings :=
  { multicast_address := ⟨239, 1, 1, 1, 5004⟩, bit_depth := ⟨16⟩,
    channels := 0, sample_rate := 0, packet_time := ⟨0⟩ }

/-- A preset whose only source is the all-zero custom stream. -/
def presetZeroStream : Preset :=
  { name := "zero", custom_stream := some zeroStream }

/-- The preset list held in a file, empty when the file is absent
(mirrors the `if presets_file.exists()` branch of `load_presets`). -/
def listOf : Option (List Preset) → List Preset
  | none => []
  | some ps => ps

/-- The list a `save_preset` call computes between its file read and its
file write (src/preset.rs lines 58-60): derive the map from what was
read, insert its own preset keyed by name, serialize the values. -/
def saveComputes (file : Option (List Preset)) (p : Preset) : List Preset :=
  hmValues (hmInsert (fromList (listOf file)) p.name p)

/-- One in-flight `save_preset` call, split at its two awaited I/O
points: the file read inside its inner `load_presets`, and the final
file write.  After the read it holds the full list it will later write;
nothing in the source prevents another save from running between the
two. -/
structure SaveTask where
  preset : Preset
  loaded : Option (List Preset)
  written : Bool
deriving DecidableEq, Repr

/-- Advance one in-flight save by one step against the shared file (the
environment is taken as all-succeeding; the race needs no failures).
First step: read the file and compute the list to write.  Second step:
replace the whole file with that list.  Later steps do nothing. -/
def stepSave (file : Option (List Preset)) (t : SaveTask) :
    Option (List Preset) × SaveTask :=
  match t.loaded with
  | none => (file, { t with loaded := some (saveComputes file t.preset) })
  | some ps =>
      if t.written then (file, t)
      else (some ps, { t with written := true })

/-- Shared state of two concurrent save calls over one backing file. -/
structure RaceState where
  file : Option (List Preset)
  taskA : SaveTask
  taskB : SaveTask
deriving DecidableEq, Repr

/-- Run one scheduled step: `false` advances task A, `true` task B. -/
def raceStep (st : RaceState) (who : Bool) : RaceState :=
  if who then
    let (f, t) := stepSave st.file st.taskB
    { st with file := f, taskB := t }
  else
    let (f, t) := stepSave st.file st.taskA
    { st with file := f, taskA := t }

/-- Run a whole schedule of interleaved steps. -/
def runRace (sched : List Bool) (st : RaceState) : RaceState :=
  sched.foldl raceStep st

/-- Initial race state: both saves pending over the given file. -/
def initRace (file : Option (List Preset)) (A B : Preset) : RaceState :=
  ⟨file, ⟨A, none, false⟩, ⟨B, none, false⟩⟩

/-- The mapping an observer obtains by loading the final file, as
`load_presets` derives it. -/
def raceLoadMap (st : RaceState) : PresetMap :=
  fromList (listOf st.file)

/-- Every binding in a map keys a preset by its own name.  Both maps the
source builds (in `load_presets` and `save_preset`) insert with
`preset.name.clone()` as the key, so they satisfy this. -/
def WellKeyed (m : PresetMap) : Prop := ∀ kv ∈ m, kv.1 = kv.2.name

/-- The last element of a preset list carrying a given name; this is what
the insertion loop of `load_presets` keeps for that name. -/
def lastNamed : List Preset → String → Option Preset
  | [], _ => none
  | p :: rest, k =>
      match lastNamed rest k with
      | some q => some q
      | none => if p.name = k then some p else none

theorem hmFind_hmInsert_self (m : PresetMap) (k : String) (v : Preset) :
    hmFind (hmInsert m k v) k = some v := by
  induction m with
  | nil => simp [hmInsert, hmFind]
  | cons kv rest ih =>
      obtain ⟨k1, v1⟩ := kv
      by_cases h : k1 = k
      · simp [hmInsert, h, hmFind]
      · simp [hmInsert, h, hmFind, ih]

theorem hmFind_hmInsert_ne (m : PresetMap) (k k1 : String) (v : Preset)
    (h : k1 ≠ k) : hmFind (hmInsert m k v) k1 = hmFind m k1 := by
  induction m with
  | nil => simp [hmInsert, hmFind, Ne.symm h]
  | cons kv rest ih =>
      obtain ⟨k2, v2⟩ := kv
      by_cases h2 : k2 = k
      · subst h2
        simp [hmInsert, hmFind, Ne.symm h]
      · simp [hmInsert, h2, hmFind, ih]

theorem hmKeys_hmInsert (m : PresetMap) (k : String) (v : Preset) :
    hmKeys (hmInsert m k v)
      = if k ∈ hmKeys m then hmKeys m else hmKeys m ++ [k] := by
  induction m with
  | nil => simp [hmInsert, hmKeys]
  | cons kv rest ih =>
      obtain ⟨k2, v2⟩ := kv
      by_cases h2 : k2 = k
      · subst h2
        simp [hmInsert, hmKeys]
      · simp only [hmInsert, if_neg h2, hmKeys, ih, List.mem_cons]
        by_cases hk : k ∈ hmKeys rest
        · simp [hk, Ne.symm h2]
        · simp [hk, Ne.symm h2]

theorem hmKeys_nodup_hmInsert (m : PresetMap) (k : String) (v : Preset)
    (h : (hmKeys m).Nodup) : (hmKeys (hmInsert m k v)).Nodup := by
  rw [hmKeys_hmInsert]
  by_cases hk : k ∈ hmKeys m
  · simpa [hk] using h
  · simp only [if_neg hk]
    refine List.Nodup.append h (List.nodup_singleton k) ?_
    intro a ha hb
    simp only [List.mem_singleton] at hb
    subst hb
    exact hk ha

theorem wellKeyed_hmInsert (m : PresetMap) (v : Preset)
    (h : WellKeyed m) : WellKeyed (hmInsert m v.name v) := by
  induction m with
  | nil =>
      intro kv hkv
      simp only [hmInsert, List.mem_singleton] at hkv
      subst hkv
      rfl
  | cons kv1 rest ih =>
      obtain ⟨k1, v1⟩ := kv1
      have h1 : k1 = v1.name := h (k1, v1) (List.mem_cons_self _ _)
      have hrest : WellKeyed rest := fun kv hkv => h kv (List.mem_cons_of_mem _ hkv)
      by_cases hk : k1 = v.name
      · intro kv hkv
        simp only [hmInsert, if_pos hk, List.mem_cons] at hkv
        rcases hkv with hkv | hkv
        · subst hkv; rfl
        · exact hrest kv hkv
      · intro kv hkv
        simp only [hmInsert, if_neg hk, List.mem_cons] at hkv
        rcases hkv with hkv | hkv
        · subst hkv; exact h1
        · exact ih hrest kv hkv

theorem hmFind_eq_none (m : PresetMap) (k : String) (h : k ∉ hmKeys m) :
    hmFind m k = none := by
  induction m with
  | nil => rfl
  | cons kv rest ih =>
      obtain ⟨k1, v1⟩ := kv
      simp only [hmKeys, List.mem_cons] at h
      push_neg at h
      simp [hmFind, Ne.symm h.1, ih h.2]

theorem hmFind_foldl_ins (ps : List Preset) (acc : PresetMap) (k : String) :
    hmFind (ps.foldl (fun m p => hmInsert m p.name p) acc) k
      = match lastNamed ps k with
        | some q => some q
        | none => hmFind acc k := by
  induction ps generalizing acc with
  | nil => rfl
  | cons p rest ih =>
      simp only [List.foldl_cons]
      rw [ih]
      cases hrest : lastNamed rest k with
      | some q => simp [lastNamed, hrest]
      | none =>
          by_cases hp : p.name = k
          · subst hp
            simp [lastNamed, hrest, hmFind_hmInsert_self]
          · simp [lastNamed, hrest, hp, hmFind_hmInsert_ne _ _ _ _ (Ne.symm hp)]

theorem wellKeyed_foldl (ps : List Preset) (acc : PresetMap) (h : WellKeyed acc) :
    WellKeyed (ps.foldl (fun m p => hmInsert m p.name p) acc) := by
  induction ps generalizing acc with
  | nil => exact h
  | cons p rest ih => exact ih _ (wellKeyed_hmInsert _ _ h)

theorem nodup_keys_foldl (ps : List Preset) (acc : PresetMap)
    (h : (hmKeys acc).Nodup) :
    (hmKeys (ps.foldl (fun m p => hmInsert m p.name p) acc)).Nodup := by
  induction ps generalizing acc with
  | nil => exact h
  | cons p rest ih => exact ih _ (hmKeys_nodup_hmInsert _ _ _ h)

theorem wellKeyed_fromList (ps : List Preset) : WellKeyed (fromList ps) :=
  wellKeyed_foldl ps [] (fun kv hkv => absurd hkv (List.not_mem_nil kv))

theorem nodup_keys_fromList (ps : List Preset) : (hmKeys (fromList ps)).Nodup :=
  nodup_keys_foldl ps [] List.nodup_nil

theorem lastNamed_hmValues (m : PresetMap) (k : String)
    (hw : WellKeyed m) (hn : (hmKeys m).Nodup) :
    lastNamed (hmValues m) k = hmFind m k := by
  induction m with
  | nil => rfl
  | cons kv rest ih =>
      obtain ⟨k1, v1⟩ := kv
      have hk1 : k1 = v1.name := hw (k1, v1) (List.mem_cons_self _ _)
      have hwrest : WellKeyed rest := fun kv hkv => hw kv (List.mem_cons_of_mem _ hkv)
      rw [hmKeys, List.nodup_cons] at hn
      have hnotin : k1 ∉ hmKeys rest := hn.1
      by_cases hk : k1 = k
      · subst hk
        simp only [hmValues, lastNamed, ih hwrest hn.2,
          hmFind_eq_none rest k1 hnotin, hmFind, if_pos rfl]
        simp [hk1]
      · simp only [hmValues, lastNamed, ih hwrest hn.2, hmFind, if_neg hk]
        cases hrest : hmFind rest k with
        | some q => rfl
        | none => rw [if_neg (hk1 ▸ hk)]

theorem hmFind_fromList_hmValues (m : PresetMap) (k : String)
    (hw : WellKeyed m) (hn : (hmKeys m).Nodup) :
    hmFind (fromList (hmValues m)) k = hmFind m k := by
  rw [fromList, hmFind_foldl_ins, lastNamed_hmValues m k hw hn]
  cases hmFind m k <;> rfl

theorem name_mem_hmKeys (m : PresetMap) (hw : WellKeyed m) (p : Preset)
    (hp : p ∈ hmValues m) : p.name ∈ hmKeys m := by
  induction m with
  | nil => cases hp
  | cons kv rest ih =>
      obtain ⟨k1, v1⟩ := kv
      have hk1 : k1 = v1.name := hw (k1, v1) (List.mem_cons_self _ _)
      have hwrest : WellKeyed rest := fun kv hkv => hw kv (List.mem_cons_of_mem _ hkv)
      simp only [hmValues, List.mem_cons] at hp
      rcases hp with hp | hp
      · subst hp
        simp [hmKeys, hk1]
      · simp [hmKeys, ih hwrest hp]

theorem hmValues_filter_eq (m : PresetMap) (k : String) (v : Preset)
    (hw : WellKeyed m) (hn : (hmKeys m).Nodup) (hf : hmFind m k = some v) :
    (hmValues m).filter (fun p => p.name = k) = [v] := by
  induction m with
  | nil => cases hf
  | cons kv rest ih =>
      obtain ⟨k1, v1⟩ := kv
      have hk1 : k1 = v1.name := hw (k1, v1) (List.mem_cons_self _ _)
      have hwrest : WellKeyed rest := fun kv hkv => hw kv (List.mem_cons_of_mem _ hkv)
      rw [hmKeys, List.nodup_cons] at hn
      by_cases hk : k1 = k
      · rw [hmFind, if_pos hk] at hf
        injection hf with hv
        subst hv
        have hempty : (hmValues rest).filter (fun p => p.name = k) = [] := by
          rw [List.filter_eq_nil_iff]
          intro p hp hcontra
          apply hn.1
          rw [hk]
          rw [decide_eq_true_eq] at hcontra
          exact hcontra ▸ name_mem_hmKeys rest hwrest p hp
        simp [hmValues, List.filter_cons, hk1 ▸ hk, hempty]
      · rw [hmFind, if_neg hk] at hf
        have hne : ¬ v1.name = k := hk1 ▸ hk
        simp [hmValues, List.filter_cons, hne, ih hwrest hn.2 hf]

theorem load_presets_snd (env : Env) (s : FsState)
    (hb : env.baseDirs = true) (hc : env.createDirOk = true) :
    (load_presets env s).2 = { s with dirExists := true } := by
  rcases hf : s.file with _ | (ps | _) <;>
    rcases hro : env.readOk with _ | _ <;>
    simp [load_presets, hb, hc, hf, hro]

theorem load_presets_filePresets (env : Env) (s : FsState) (ps : List Preset)
    (hb : env.baseDirs = true) (hc : env.createDirOk = true)
    (hr : env.readOk = true) (hf : s.file = some (.presets ps)) :
    (load_presets env s).1 = .ok (fromList ps) := by
  simp [load_presets, hb, hc, hr, hf]

theorem load_presets_ok_cases (env : Env) (s : FsState) (m : PresetMap)
    (h : (load_presets env s).1 = .ok m) :
    env.baseDirs = true ∧ env.createDirOk = true ∧
      (s.file = none ∧ m = [] ∨
        ∃ ps, s.file = some (.presets ps) ∧ m = fromList ps) := by
  rcases hb : env.baseDirs with _ | _
  · simp [load_presets, hb] at h
  · rcases hc : env.createDirOk with _ | _
    · simp [load_presets, hb, hc] at h
    · rcases hf : s.file with _ | (ps | _)
      · simp [load_presets, hb, hc, hf] at h
        exact ⟨rfl, rfl, Or.inl ⟨rfl, h⟩⟩
      · rcases hr : env.readOk with _ | _
        · simp [load_presets, hb, hc, hf, hr] at h
        · simp [load_presets, hb, hc, hf, hr] at h
          exact ⟨rfl, rfl, Or.inr ⟨ps, rfl, h.symm⟩⟩
      · rcases hr : env.readOk with _ | _ <;>
          simp [load_presets, hb, hc, hf, hr] at h

theorem load_presets_ok_invariant (env : Env) (s : FsState) (m : PresetMap)
    (h : (load_presets env s).1 = .ok m) :
    WellKeyed m ∧ (hmKeys m).Nodup := by
  obtain ⟨-, -, hcases⟩ := load_presets_ok_cases env s m h
  rcases hcases with ⟨-, rfl⟩ | ⟨ps, -, rfl⟩
  · exact ⟨fun kv hkv => absurd hkv (List.not_mem_nil kv), List.nodup_nil⟩
  · exact ⟨wellKeyed_fromList ps, nodup_keys_fromList ps⟩

theorem save_preset_ok_cases (P : Preset) (env : Env) (s : FsState)
    (h : (save_preset P env s).1 = .ok ()) :
    ∃ m, (load_presets env { s with dirExists := true }).1 = .ok m ∧
      (save_preset P env s).2
        = { dirExists := true,
            file := some (.presets (hmValues (hmInsert m P.name P))) } := by
  rcases hb : env.baseDirs with _ | _
  · simp [save_preset, hb] at h
  · rcases hc : env.createDirOk with _ | _
    · simp [save_preset, hb, hc] at h
    · rcases hload : load_presets env { s with dirExists := true } with ⟨res, s2⟩
      rcases res with e | m
      · simp [save_preset, hb, hc, hload] at h
      · rcases hw : env.writeOk with _ | _
        · simp [save_preset, hb, hc, hload, hw] at h
        · have hs2 : s2 = { s with dirExists := true } := by
            have hsnd := load_presets_snd env { s with dirExists := true } hb hc
            rw [hload] at hsnd
            simpa using hsnd
          refine ⟨m, rfl, ?_⟩
          simp [save_preset, hb, hc, hload, hw, hs2]

theorem save_then_load_aux (P : Preset) (env env2 : Env) (s : FsState)
    (hsave : (save_preset P env s).1 = .ok ())
    (hb : env2.baseDirs = true) (hc : env2.createDirOk = true)
    (hr : env2.readOk = true) :
    ∃ m, (load_presets env2 (save_preset P env s).2).1 = .ok m
      ∧ hmFind m P.name = some P := by
  obtain ⟨m0, hload0, hfile⟩ := save_preset_ok_cases P env s hsave
  obtain ⟨hw0, hn0⟩ := load_presets_ok_invariant env _ m0 hload0
  have hfile2 : ((save_preset P env s).2).file
      = some (.presets (hmValues (hmInsert m0 P.name P))) := by
    rw [hfile]
  refine ⟨fromList (hmValues (hmInsert m0 P.name P)),
    load_presets_filePresets env2 _ _ hb hc hr hfile2, ?_⟩
  rw [hmFind_fromList_hmValues (hmInsert m0 P.name P) P.name
    (wellKeyed_hmInsert m0 P hw0) (hmKeys_nodup_hmInsert m0 P.name P hn0)]
  exact hmFind_hmInsert_self m0 P.name P

/-- C1: saving a preset and then loading all presets yields a mapping that
contains, under the preset's name, an entry equal to the saved preset in
every field. -/
theorem save_then_load_roundtrip (P : Preset) (env env2 : Env) (s : FsState)
    (hsave : (save_preset P env s).1 = .ok ())
    (hb : env2.baseDirs = true) (hc : env2.createDirOk = true)
    (hr : env2.readOk = true) :
    ∃ m, (load_presets env2 (save_preset P env s).2).1 = .ok m
      ∧ hmFind m P.name = some P :=
  save_then_load_aux P env env2 s hsave hb hc hr

/-- Witness for C1 at a concrete preset, a fresh filesystem and an
all-succeeding environment. -/
theorem save_then_load_roundtrip_witness :
    ∃ m, (load_presets envOk (save_preset presetRaw envOk fsEmpty).2).1 = .ok m
      ∧ hmFind m presetRaw.name = some presetRaw :=
  save_then_load_roundtrip presetRaw envOk envOk fsEmpty rfl rfl rfl rfl

/-- C2: saving P and then a P2 with the same name leaves the backing file
with exactly one record carrying that name, and that record is P2 whole
(the earlier record is replaced, not merged). -/
theorem save_upsert_last_wins (P P2 : Preset) (env1 env2 : Env) (s : FsState)
    (hname : P2.name = P.name)
    (_h1 : (save_preset P env1 s).1 = .ok ())
    (h2 : (save_preset P2 env2 (save_preset P env1 s).2).1 = .ok ()) :
    ∃ ps, ((save_preset P2 env2 (save_preset P env1 s).2).2).file
            = some (.presets ps)
      ∧ ps.filter (fun q => q.name = P.name) = [P2] := by
  obtain ⟨m1, hload1, hfile1⟩ := save_preset_ok_cases P2 env2 _ h2
  obtain ⟨hw1, hn1⟩ := load_presets_ok_invariant env2 _ m1 hload1
  refine ⟨hmValues (hmInsert m1 P2.name P2), by rw [hfile1], ?_⟩
  have hfind : hmFind (hmInsert m1 P2.name P2) P.name = some P2 := by
    rw [← hname]
    exact hmFind_hmInsert_self m1 P2.name P2
  exact hmValues_filter_eq (hmInsert m1 P2.name P2) P.name P2
    (wellKeyed_hmInsert m1 P2 hw1) (hmKeys_nodup_hmInsert m1 P2.name P2 hn1) hfind

/-- Witness for C2: two concrete presets named `a` saved in sequence. -/
theorem save_upsert_last_wins_witness :
    ∃ ps, ((save_preset presetA2 envOk (save_preset presetA envOk fsEmpty).2).2).file
            = some (.presets ps)
      ∧ ps.filter (fun q => q.name = presetA.name) = [presetA2] :=
  save_upsert_last_wins presetA presetA2 envOk envOk fsEmpty rfl rfl rfl

/-- C3: when the backing presets file does not exist, `load_presets`
returns Ok with an empty mapping (under a resolvable config dir and a
successful directory creation, the only other things the call does
first). -/
theorem load_presets_absent_ok (env : Env) (s : FsState)
    (hb : env.baseDirs = true) (hc : env.createDirOk = true)
    (hf : s.file = none) :
    (load_presets env s).1 = .ok [] := by
  simp [load_presets, hb, hc, hf]

/-- Witness for C3 on a fresh filesystem. -/
theorem load_presets_absent_ok_witness :
    (load_presets envOk fsEmpty).1 = .ok [] :=
  load_presets_absent_ok envOk fsEmpty rfl rfl rfl

/-- C4: when the backing presets file exists but does not parse as a
sequence of presets, `load_presets` returns the deserialization error, not
any mapping. -/
theorem load_presets_corrupt_error (env : Env) (s : FsState)
    (hb : env.baseDirs = true) (hc : env.createDirOk = true)
    (hr : env.readOk = true) (hf : s.file = some .corrupt) :
    (load_presets env s).1 = .error .YamlError := by
  simp [load_presets, hb, hc, hr, hf]

/-- Witness for C4 on a corrupt presets file. -/
theorem load_presets_corrupt_error_witness :
    (load_presets envOk fsCorrupt).1 = .error .YamlError :=
  load_presets_corrupt_error envOk fsCorrupt rfl rfl rfl rfl

/-- C10: every `load_presets` call (also one that finds no presets file)
creates the app config directory as a side effect, and fails with an Io
error when the directory cannot be created. -/
theorem load_presets_creates_dir (env : Env) (s : FsState)
    (hb : env.baseDirs = true) :
    (env.createDirOk = true → (load_presets env s).2.dirExists = true)
    ∧ (env.createDirOk = false → (load_presets env s).1 = .error .IoError) := by
  constructor
  · intro hc
    rw [load_presets_snd env s hb hc]
  · intro hc
    simp [load_presets, hb, hc]

/-- Witness for C10: a fresh filesystem with no presets file gains the
config directory, and a failing directory creation surfaces as Io. -/
theorem load_presets_creates_dir_witness :
    (load_presets envOk fsEmpty).2.dirExists = true
    ∧ (load_presets envNoDir fsEmpty).1 = .error .IoError :=
  ⟨(load_presets_creates_dir envOk fsEmpty rfl).1 rfl,
   (load_presets_creates_dir envNoDir fsEmpty rfl).2 rfl⟩

/-- C5 counterexample: `Api::stop` called while zero receivers are
subscribed to the broadcast channel returns an error, and that error is
the generic internal-server-error mapping, not any `NoActiveSession`
kind (no such kind exists in the code). -/
theorem stop_zero_receivers_errors :
    Api.stop 0 = Except.error PoemError.internalServerError := rfl

/-- C5 amended: whenever at least one receiver is subscribed, `Api::stop`
succeeds; the handler keeps no state, so an immediately repeated call
under the same subscriptions succeeds as well.  Only with zero receivers
does it fail, and then with the generic internal error. -/
theorem stop_ok_with_receivers (n : Nat) (h : 0 < n) :
    Api.stop n = .ok "Ok" := by
  have hne : n ≠ 0 := Nat.pos_iff_ne_zero.mp h
  simp [Api.stop, broadcastSend, hne]

/-- Witness for the amended C5 at one subscribed receiver. -/
theorem stop_ok_with_receivers_witness : Api.stop 1 = .ok "Ok" :=
  stop_ok_with_receivers 1 (by decide)

/-- C6: the `Api::status` handler is a stub that answers
`playing: true` unconditionally, consulting no session state; in
particular it still reports playing after a stop. -/
theorem status_always_playing :
    Api.status = Except.ok { playing := true } := rfl

/-- C7: the `Api::set_volume` handler is a stub that accepts the
out-of-range volume 1.5 (and any other value) with Ok instead of
rejecting it. -/
theorem set_volume_accepts_out_of_range :
    Api.set_volume float1_5 = Except.ok "Ok" := rfl

/-- C8 counterexample: a preset populating two descriptor sources at
once, and custom stream settings with zero channels and zero sample
rate, are admitted by the data model, and `save_preset` accepts both
without complaint. -/
theorem preset_variant_invariant_fails :
    populatedVariants presetTwoSources = 2
    ∧ presetZeroStream.custom_stream = some zeroStream
    ∧ zeroStream.channels = 0
    ∧ zeroStream.sample_rate = 0
    ∧ (save_preset presetTwoSources envOk fsEmpty).1 = .ok ()
    ∧ (save_preset presetZeroStream envOk fsEmpty).1 = .ok () :=
  ⟨rfl, rfl, rfl, rfl, rfl, rfl⟩

/-- C8 amended: the data model enforces no exactly-one-variant or
positivity invariant: a preset with any number of populated descriptor
sources (and any numeric custom-stream values) is accepted by the store
and comes back from a load unchanged. -/
theorem preset_store_enforces_no_variant_invariant (p : Preset) (n : Nat)
    (_hn : populatedVariants p = n) :
    (save_preset p envOk fsEmpty).1 = .ok ()
    ∧ ∃ m, (load_presets envOk (save_preset p envOk fsEmpty).2).1 = .ok m
        ∧ hmFind m p.name = some p := by
  have hsave : (save_preset p envOk fsEmpty).1 = .ok () := rfl
  exact ⟨hsave, save_then_load_aux p envOk envOk fsEmpty hsave rfl rfl rfl⟩

/-- Witness for the amended C8 at the two-source preset. -/
theorem preset_store_enforces_no_variant_invariant_witness :
    (save_preset presetTwoSources envOk fsEmpty).1 = .ok ()
    ∧ ∃ m, (load_presets envOk (save_preset presetTwoSources envOk fsEmpty).2).1 = .ok m
        ∧ hmFind m presetTwoSources.name = some presetTwoSources :=
  preset_store_enforces_no_variant_invariant presetTwoSources 2 rfl

/-- C9 counterexample: under the interleaving read-A, read-B, write-A,
write-B, both saves run to completion, yet preset `a` is absent from the
final store while `b` is present: the unsynchronized read-modify-write
lost an update. -/
theorem concurrent_saves_lose_update :
    (runRace [false, true, false, true] (initRace none presetA presetB)).taskA.written = true
    ∧ (runRace [false, true, false, true] (initRace none presetA presetB)).taskB.written = true
    ∧ hmFind (raceLoadMap (runRace [false, true, false, true]
        (initRace none presetA presetB))) presetA.name = none
    ∧ hmFind (raceLoadMap (runRace [false, true, false, true]
        (initRace none presetA presetB))) presetB.name = some presetB :=
  ⟨rfl, rfl, by decide, by decide⟩

/-- C9 amended: `save_preset` has no internal mutual exclusion, so an
overlapping interleaving can lose a save; both presets are guaranteed to
survive when the two saves do not overlap, that is, when one save's write
completes before the other save's read. -/
theorem sequential_saves_keep_both (A B : Preset) (file0 : Option (List Preset))
    (hname : A.name ≠ B.name) :
    hmFind (raceLoadMap (runRace [false, false, true, true]
      (initRace file0 A B))) A.name = some A
    ∧ hmFind (raceLoadMap (runRace [false, false, true, true]
        (initRace file0 A B))) B.name = some B := by
  have hwA : WellKeyed (hmInsert (fromList (listOf file0)) A.name A) :=
    wellKeyed_hmInsert _ _ (wellKeyed_fromList _)
  have hnA : (hmKeys (hmInsert (fromList (listOf file0)) A.name A)).Nodup :=
    hmKeys_nodup_hmInsert _ _ _ (nodup_keys_fromList _)
  have hwB : WellKeyed (hmInsert
      (fromList (hmValues (hmInsert (fromList (listOf file0)) A.name A))) B.name B) :=
    wellKeyed_hmInsert _ _ (wellKeyed_fromList _)
  have hnB : (hmKeys (hmInsert
      (fromList (hmValues (hmInsert (fromList (listOf file0)) A.name A))) B.name B)).Nodup :=
    hmKeys_nodup_hmInsert _ _ _ (nodup_keys_fromList _)
  constructor
  · show hmFind (fromList (hmValues (hmInsert
      (fromList (hmValues (hmInsert (fromList (listOf file0)) A.name A)))
      B.name B))) A.name = some A
    rw [hmFind_fromList_hmValues _ _ hwB hnB,
      hmFind_hmInsert_ne _ _ _ _ hname,
      hmFind_fromList_hmValues _ _ hwA hnA]
    exact hmFind_hmInsert_self _ _ _
  · show hmFind (fromList (hmValues (hmInsert
      (fromList (hmValues (hmInsert (fromList (listOf file0)) A.name A)))
      B.name B))) B.name = some B
    rw [hmFind_fromList_hmValues _ _ hwB hnB]
    exact hmFind_hmInsert_self _ _ _

/-- Witness for the amended C9 at two concrete presets over a fresh
file. -/
theorem sequential_saves_keep_both_witness :
    hmFind (raceLoadMap (runRace [false, false, true, true]
      (initRace none presetA presetB))) presetA.name = some presetA
    ∧ hmFind (raceLoadMap (runRace [false, false, true, true]
        (initRace none presetA presetB))) presetB.name = some presetB :=
  sequential_saves_keep_both presetA presetB none (by decide)

end SdpPlayer
